import Mathlib

/-!
Verification development for the gRPC proof-of-work miner
(`miner_server.py` and `miner_client.py`).

The server keeps a table of transactions (rounds), each with a challenge
drawn from `[1,20]`, an optional solution string and a winner field whose
sentinel `-1` means "not yet solved".  A submission is accepted when the
SHA-1 hex digest of the candidate starts with `challenge` zero characters;
acceptance records solution and winner and creates the next round.

The client races 8 worker threads, each hashing random 16-character
alphanumeric nonces until one finds a digest with the required number of
leading zero characters; the first finder claims a shared slot under a
lock and raises a stop event, the others exit cooperatively.
-/

set_option maxRecDepth 100000

namespace Miner

/-! ## SHA-1, executable, over lists of byte values -/

/-- 2^32, the word modulus of SHA-1. -/
def w32 : Nat := 4294967296

/-- Rotate a 32-bit word left by `n` bits. -/
def rotl (n x : Nat) : Nat := ((x <<< n) % w32) ||| (x >>> (32 - n))

/-- Big-endian byte rendering of `n` using exactly `k` bytes. -/
def toBytesBE : Nat → Nat → List Nat
  | 0, _ => []
  | k + 1, n => toBytesBE k (n / 256) ++ [n % 256]

/-- SHA-1 padding: append `0x80`, zero bytes up to 56 mod 64, then the
bit length as 8 big-endian bytes. -/
def padMessage (msg : List Nat) : List Nat :=
  let len := msg.length
  let padZeros := (119 - (len % 64)) % 64
  msg ++ [128] ++ List.replicate padZeros 0 ++ toBytesBE 8 (8 * len)

/-- Group bytes into big-endian 32-bit words. -/
def bytesToWords : List Nat → List Nat
  | a :: b :: c :: d :: rest =>
      (a * 16777216 + b * 65536 + c * 256 + d) :: bytesToWords rest
  | _ => []

/-- One step of the SHA-1 message-schedule extension: append the xor of
the words 3, 8, 14 and 16 positions back, rotated left by one. -/
def extendStep (ws : List Nat) : List Nat :=
  let n := ws.length
  let a := ws.getD (n - 3) 0
  let b := ws.getD (n - 8) 0
  let c := ws.getD (n - 14) 0
  let d := ws.getD (n - 16) 0
  ws ++ [rotl 1 (((a ^^^ b) ^^^ c) ^^^ d)]

/-- Iterate the message-schedule extension `k` times. -/
def extendWords : Nat → List Nat → List Nat
  | 0, ws => ws
  | k + 1, ws => extendWords k (extendStep ws)

/-- The SHA-1 compression function on one 64-byte chunk. -/
def sha1Compress (st : Nat × Nat × Nat × Nat × Nat) (chunk : List Nat) :
    Nat × Nat × Nat × Nat × Nat :=
  let ws := extendWords 64 (bytesToWords chunk)
  let round := fun (acc : Nat × Nat × Nat × Nat × Nat) (p : Nat × Nat) =>
    let (a, b, c, d, e) := acc
    let (i, wi) := p
    let f :=
      if i < 20 then (b &&& c) ||| (((w32 - 1) ^^^ b) &&& d)
      else if i < 40 then (b ^^^ c) ^^^ d
      else if i < 60 then ((b &&& c) ||| (b &&& d)) ||| (c &&& d)
      else (b ^^^ c) ^^^ d
    let k :=
      if i < 20 then 1518500249
      else if i < 40 then 1859775393
      else if i < 60 then 2400959708
      else 3395469782
    let temp := (rotl 5 a + f + e + k + wi) % w32
    (temp, a, rotl 30 b, c, d)
  let (h0, h1, h2, h3, h4) := st
  let (a, b, c, d, e) := ((List.range 80).zip ws).foldl round (h0, h1, h2, h3, h4)
  ((h0 + a) % w32, (h1 + b) % w32, (h2 + c) % w32, (h3 + d) % w32, (h4 + e) % w32)

/-- Split a byte list into 64-byte chunks; `fuel` bounds the recursion. -/
def chunksOf64 : Nat → List Nat → List (List Nat)
  | 0, _ => []
  | _, [] => []
  | fuel + 1, l => l.take 64 :: chunksOf64 fuel (l.drop 64)

/-- The SHA-1 digest (20 bytes) of a byte list. -/
def sha1Bytes (msg : List Nat) : List Nat :=
  let padded := padMessage msg
  let st := (chunksOf64 (padded.length + 1) padded).foldl sha1Compress
    (1732584193, 4023233417, 2562383102, 271733878, 3285377520)
  toBytesBE 4 st.1 ++ toBytesBE 4 st.2.1 ++ toBytesBE 4 st.2.2.1 ++
    toBytesBE 4 st.2.2.2.1 ++ toBytesBE 4 st.2.2.2.2

/-- Lowercase hexadecimal digit for a value below 16. -/
def hexDigit (n : Nat) : Char :=
  if n < 10 then Char.ofNat (48 + n) else Char.ofNat (87 + n)

/-- Two lowercase hex characters for one byte. -/
def byteToHex (b : Nat) : List Char := [hexDigit (b / 16), hexDigit (b % 16)]

/-- The lowercase hexadecimal SHA-1 digest, as a list of 40 characters;
this models Python's `hashlib.sha1(...).hexdigest()`. -/
def sha1HexChars (msg : List Nat) : List Char := (sha1Bytes msg).flatMap byteToHex

/-- UTF-8 encoding of one character, as byte values. -/
def utf8Encode (c : Char) : List Nat :=
  let n := c.toNat
  if n < 128 then [n]
  else if n < 2048 then [192 + n / 64, 128 + n % 64]
  else if n < 65536 then [224 + n / 4096, 128 + (n / 64) % 64, 128 + n % 64]
  else [240 + n / 262144, 128 + (n / 4096) % 64, 128 + (n / 64) % 64, 128 + n % 64]

/-- The UTF-8 bytes of a string; this models Python's `s.encode('utf-8')`. -/
def strBytes (s : String) : List Nat := s.data.flatMap utf8Encode

/-- Known digest: sha1 of the empty string is da39a3ee5e6b4b0d3255bfef95601890afd80709. -/
theorem sha1_empty_vector :
    sha1HexChars (strBytes "") =
      "da39a3ee5e6b4b0d3255bfef95601890afd80709".data := by decide

/-- Known digest: sha1 of "abc" is a9993e364706816aba3e25717850c26c9cd0d89d. -/
theorem sha1_abc_vector :
    sha1HexChars (strBytes "abc") =
      "a9993e364706816aba3e25717850c26c9cd0d89d".data := by decide

/-! ## The server: transaction table and operations (`miner_server.py`)

A round (transaction) is a record with a challenge, an optional solution
and a winner id, where winner `-1` means "not yet solved".  The table is
an association list from transaction id to round; `findTx` is dictionary
lookup and `setTx` in-place update of an existing entry.  The random draw
`random.randint(1, 20)` of a fresh challenge is passed in explicitly as
an oracle argument `c`. -/

/-- One row of the transaction table:
`{"challenge": N, "solution": ..., "winner": clientID}`. -/
structure Round where
  challenge : Nat
  solution : Option String
  winner : Int
deriving DecidableEq

/-- The servicer state: the transaction dictionary and
`current_transaction_id`. -/
structure ServerState where
  transactions : List (Int × Round)
  current_transaction_id : Int
deriving DecidableEq

/-- Dictionary lookup `self.transactions[tx_id]` (first matching key). -/
def findTx : List (Int × Round) → Int → Option Round
  | [], _ => none
  | (k, r) :: rest, id => if k = id then some r else findTx rest id

/-- Dictionary update of an existing key, leaving other entries alone. -/
def setTx : List (Int × Round) → Int → Round → List (Int × Round)
  | [], _, _ => []
  | (k, r0) :: rest, id, r =>
      if k = id then (k, r) :: rest else (k, r0) :: setTx rest id r

/-- `_check_solution(challenge, solution)`: false on an empty (falsy)
solution, else tests whether the lowercase hex SHA-1 digest of the
solution's UTF-8 bytes starts with `challenge` zero characters. -/
def check_solution (challenge : Nat) (solution : String) : Bool :=
  if solution = "" then false
  else (List.replicate challenge '0').isPrefixOf (sha1HexChars (strBytes solution))

/-- `_generate_new_challenge()`: increment the current id and insert a
fresh pending round whose challenge is the drawn value `c`. -/
def generate_new_challenge (c : Nat) (s : ServerState) : ServerState :=
  { transactions := s.transactions ++
      [(s.current_transaction_id + 1,
        { challenge := c, solution := none, winner := -1 })],
    current_transaction_id := s.current_transaction_id + 1 }

/-- The state built by `__init__`: empty table, id `-1`, then one call of
`_generate_new_challenge` with first drawn challenge `c`. -/
def initState (c : Nat) : ServerState :=
  generate_new_challenge c { transactions := [], current_transaction_id := -1 }

/-- `submitChallenge`: returns the new state and the result code
(`-1` invalid id, `2` already solved, `1` accepted, `0` rejected).
On acceptance it stores solution and winner and generates the next
round with drawn challenge `c`. -/
def submitChallenge (c : Nat) (s : ServerState) (tx_id client_id : Int)
    (solution : String) : ServerState × Int :=
  match findTx s.transactions tx_id with
  | none => (s, -1)
  | some r =>
    if r.winner ≠ -1 then (s, 2)
    else if check_solution r.challenge solution then
      let r' : Round := { r with solution := some solution, winner := client_id }
      let s' : ServerState := { s with transactions := setTx s.transactions tx_id r' }
      (generate_new_challenge c s', 1)
    else (s, 0)

/-- `getChallenge`: the round's challenge, or `-1` on an unknown id. -/
def getChallenge (s : ServerState) (id : Int) : Int :=
  match findTx s.transactions id with
  | none => -1
  | some r => (r.challenge : Int)

/-- `getTransactionStatus`: `-1` unknown id, `1` pending, `0` resolved. -/
def getTransactionStatus (s : ServerState) (id : Int) : Int :=
  match findTx s.transactions id with
  | none => -1
  | some r => if r.winner = -1 then 1 else 0

/-- `getWinner`: `-1` unknown id, `0` no winner yet, else the winner id. -/
def getWinner (s : ServerState) (id : Int) : Int :=
  match findTx s.transactions id with
  | none => -1
  | some r => if r.winner = -1 then 0 else r.winner

/-- `getSolution`: status, solution text and challenge in one reply. -/
def getSolution (s : ServerState) (id : Int) : Int × String × Int :=
  match findTx s.transactions id with
  | none => (-1, "", -1)
  | some r =>
      if r.winner = -1 then (1, "", (r.challenge : Int))
      else (0, r.solution.getD "", (r.challenge : Int))

/-- One inbound RPC request. -/
inductive Req
  | getTransactionID
  | getChallenge (id : Int)
  | getTransactionStatus (id : Int)
  | submitChallenge (id clientId : Int) (solution : String)
  | getWinner (id : Int)
  | getSolution (id : Int)

/-- The reply to a request. -/
inductive Reply
  | val (n : Int)
  | info (status : Int) (solution : String) (challenge : Int)
deriving DecidableEq

/-- One serialized RPC step of the servicer: the lock serializes every
handler, so each request is one atomic transformation of the state.
`c` is the oracle value used if a fresh challenge is drawn. -/
def step (c : Nat) (req : Req) (s : ServerState) : ServerState × Reply :=
  match req with
  | .getTransactionID => (s, .val s.current_transaction_id)
  | .getChallenge id => (s, .val (getChallenge s id))
  | .getTransactionStatus id => (s, .val (getTransactionStatus s id))
  | .submitChallenge id clientId sol =>
      let p := submitChallenge c s id clientId sol
      (p.1, .val p.2)
  | .getWinner id => (s, .val (getWinner s id))
  | .getSolution id =>
      let t := getSolution s id
      (s, .info t.1 t.2.1 t.2.2)

/-- Well-formedness of the table: the ids present are exactly
`{0, ..., current_transaction_id}`. -/
def WF (s : ServerState) : Prop :=
  ∀ id : Int, (findTx s.transactions id).isSome ↔
    (0 ≤ id ∧ id ≤ s.current_transaction_id)

/-! ### Lookup and update lemmas -/

theorem findTx_append (l : List (Int × Round)) (k : Int) (r : Round) (id : Int) :
    findTx (l ++ [(k, r)]) id =
      match findTx l id with
      | some r0 => some r0
      | none => if k = id then some r else none := by
  induction l with
  | nil => simp [findTx]
  | cons p rest ih =>
      obtain ⟨k0, r0⟩ := p
      by_cases h : k0 = id <;> simp [findTx, h, ih]

theorem findTx_setTx (l : List (Int × Round)) (id id' : Int) (r : Round) :
    findTx (setTx l id r) id' =
      if id' = id then
        match findTx l id with
        | some _ => some r
        | none => none
      else findTx l id' := by
  induction l with
  | nil => simp [findTx, setTx]
  | cons p rest ih =>
      obtain ⟨k0, r0⟩ := p
      by_cases hk : k0 = id <;> by_cases h' : k0 = id' <;>
        by_cases h2 : id' = id <;>
          simp_all [findTx, setTx]

theorem initState_WF (c : Nat) : WF (initState c) := by
  intro id
  unfold initState generate_new_challenge
  by_cases h0 : (-1 : Int) + 1 = id <;> simp [findTx, h0] <;> omega

theorem isPrefixOf_iff_take {α : Type} [DecidableEq α] (l₁ l₂ : List α) :
    l₁.isPrefixOf l₂ = true ↔ l₂.take l₁.length = l₁ := by
  induction l₁ generalizing l₂ with
  | nil => simp [List.isPrefixOf]
  | cons a t ih =>
      cases l₂ with
      | nil => simp [List.isPrefixOf]
      | cons b t₂ =>
          constructor
          · intro h
            simp only [List.isPrefixOf, Bool.and_eq_true, beq_iff_eq] at h
            simp [List.take, h.1.symm, (ih t₂).mp h.2]
          · intro h
            simp only [List.length_cons, List.take, List.cons.injEq] at h
            simp [List.isPrefixOf, h.1, (ih t₂).mpr h.2]

/-- Claim C4: for every difficulty in `[1,20]` and every string `s`,
`_check_solution(difficulty, s)` is true exactly when the lowercase
hexadecimal SHA-1 digest of the UTF-8 encoding of `s` has its first
`difficulty` characters all equal to '0'. -/
theorem check_solution_leading_zeros (d : Nat) (s : String)
    (h1 : 1 ≤ d) (h2 : d ≤ 20) :
    check_solution d s = true ↔
      (sha1HexChars (strBytes s)).take d = List.replicate d '0' := by
  unfold check_solution
  by_cases hs : s = ""
  · subst hs
    rw [if_pos rfl]
    simp only [Bool.false_eq_true, false_iff]
    intro hEq
    obtain ⟨k, rfl⟩ : ∃ k, d = k + 1 := ⟨d - 1, by omega⟩
    have hh : (sha1HexChars (strBytes "")).head? = some 'd' := by
      rw [sha1_empty_vector]; decide
    cases hL : sha1HexChars (strBytes "") with
    | nil => rw [hL] at hh; simp at hh
    | cons a t =>
        rw [hL] at hh hEq
        simp only [List.head?] at hh
        simp only [List.take, List.replicate, List.cons.injEq] at hEq
        rw [Option.some_inj.mp hh] at hEq
        exact absurd hEq.1 (by decide)
  · rw [if_neg hs, isPrefixOf_iff_take, List.length_replicate]

/-- Witness for C4 at difficulty 1 and the string "abc". -/
theorem check_solution_leading_zeros_witness :
    check_solution 1 "abc" = true ↔
      (sha1HexChars (strBytes "abc")).take 1 = List.replicate 1 '0' :=
  check_solution_leading_zeros 1 "abc" (by decide) (by decide)

/-- Claim C2: the result code of `submitChallenge` is `-1` when the id
names no round, else `2` when the round's winner is already set (with no
re-verification), else `1` when the candidate passes verification
against the round's challenge and `0` when it fails. -/
theorem submit_result_cases (c : Nat) (s : ServerState) (id clientId : Int)
    (cand : String) :
    (submitChallenge c s id clientId cand).2 =
      match findTx s.transactions id with
      | none => -1
      | some r =>
          if r.winner ≠ -1 then 2
          else if check_solution r.challenge cand then 1 else 0 := by
  unfold submitChallenge
  cases findTx s.transactions id with
  | none => rfl
  | some r =>
      by_cases hw : r.winner ≠ -1
      · simp [hw]
      · by_cases hc : check_solution r.challenge cand <;> simp [hw, hc]

/-- Claim C5: a failing submission to a pending round returns `Rejected`
(0) and leaves the whole state unchanged; iterating the same failing
submission any number of times leaves the state fixed (so it is rejected
every time). -/
theorem reject_frame (c : Nat) (s : ServerState) (id clientId : Int)
    (cand : String) (r : Round)
    (hf : findTx s.transactions id = some r) (hw : r.winner = -1)
    (hc : check_solution r.challenge cand = false) :
    submitChallenge c s id clientId cand = (s, 0) ∧
      ∀ n : Nat, (fun t => (submitChallenge c t id clientId cand).1)^[n] s = s := by
  have h1 : submitChallenge c s id clientId cand = (s, 0) := by
    unfold submitChallenge
    rw [hf]
    simp [hw, hc]
  refine ⟨h1, fun n => Function.iterate_fixed ?_ n⟩
  simp [h1]

/-- Witness for C5: submitting "abc" (digest a9993e…, no leading zero)
to the fresh round 0 of challenge 3 is rejected and changes nothing. -/
theorem reject_frame_witness :
    submitChallenge 5 (initState 3) 0 7 "abc" = (initState 3, 0) ∧
      ∀ n : Nat,
        (fun t => (submitChallenge 5 t 0 7 "abc").1)^[n] (initState 3) = initState 3 :=
  reject_frame 5 (initState 3) 0 7 "abc"
    { challenge := 3, solution := none, winner := -1 }
    (by decide) rfl (by decide)

/-- The state after an accepted submission: the result is `1`, the
submitted round now stores the candidate and the client id, and the
current id advances by one. -/
theorem submit_accept_lookup (c : Nat) (s : ServerState) (id clientId : Int)
    (cand : String) (r : Round)
    (hf : findTx s.transactions id = some r) (hw : r.winner = -1)
    (hc : check_solution r.challenge cand = true) :
    (submitChallenge c s id clientId cand).2 = 1 ∧
    (submitChallenge c s id clientId cand).1.transactions =
      setTx s.transactions id
          ({ r with solution := some cand, winner := clientId }) ++
        [(s.current_transaction_id + 1,
          { challenge := c, solution := none, winner := -1 })] ∧
    (submitChallenge c s id clientId cand).1.current_transaction_id =
      s.current_transaction_id + 1 := by
  unfold submitChallenge
  rw [hf]
  simp [hw, hc, generate_new_challenge]

/-- Lookup of the submitted round after an accepted submission. -/
theorem findTx_after_accept (c : Nat) (s : ServerState) (id clientId : Int)
    (cand : String) (r : Round)
    (hf : findTx s.transactions id = some r) (hw : r.winner = -1)
    (hc : check_solution r.challenge cand = true) :
    findTx (submitChallenge c s id clientId cand).1.transactions id =
      some ({ r with solution := some cand, winner := clientId }) := by
  obtain ⟨-, hT, -⟩ := submit_accept_lookup c s id clientId cand r hf hw hc
  rw [hT, findTx_append, findTx_setTx, if_pos rfl, hf]

/-- `submitChallenge` preserves the table invariants. -/
theorem submit_preserves_table (c : Nat) (s : ServerState) (id clientId : Int)
    (cand : String) (hWF : WF s) :
    WF (submitChallenge c s id clientId cand).1 ∧
    s.current_transaction_id ≤
      (submitChallenge c s id clientId cand).1.current_transaction_id ∧
    ∀ id' r', findTx s.transactions id' = some r' →
      ∃ r'', findTx (submitChallenge c s id clientId cand).1.transactions id' =
          some r'' ∧ r''.challenge = r'.challenge := by
  cases hf : findTx s.transactions id with
  | none =>
      unfold submitChallenge
      rw [hf]
      exact ⟨hWF, le_refl _, fun id' r' h => ⟨r', h, rfl⟩⟩
  | some r =>
      by_cases hw : r.winner = -1
      · by_cases hc : check_solution r.challenge cand
        · obtain ⟨-, hT, hcur⟩ := submit_accept_lookup c s id clientId cand r hf hw hc
          have hid : 0 ≤ id ∧ id ≤ s.current_transaction_id :=
            (hWF id).mp (by rw [hf]; rfl)
          refine ⟨?_, by omega, ?_⟩
          · intro j
            rw [hT, hcur, findTx_append, findTx_setTx]
            by_cases hj : j = id
            · subst hj
              rw [if_pos rfl, hf]
              simp only [Option.isSome_some, true_iff]
              omega
            · rw [if_neg hj]
              cases hfj : findTx s.transactions j with
              | some rj =>
                  have := (hWF j).mp (by rw [hfj]; rfl)
                  simp only [Option.isSome_some, true_iff]
                  omega
              | none =>
                  have hnot : ¬ (0 ≤ j ∧ j ≤ s.current_transaction_id) := by
                    intro hcon
                    have := (hWF j).mpr hcon
                    rw [hfj] at this
                    simp at this
                  by_cases hj1 : s.current_transaction_id + 1 = j
                  · rw [if_pos hj1]
                    simp only [Option.isSome_some, true_iff]
                    omega
                  · rw [if_neg hj1]
                    simp only [Option.isSome_none, Bool.false_eq_true, false_iff]
                    omega
          · intro j rj hfj
            rw [hT, findTx_append, findTx_setTx]
            by_cases hj : j = id
            · subst hj
              rw [if_pos rfl, hf]
              rw [hf] at hfj
              exact ⟨_, rfl, by simp [Option.some_inj.mp hfj]⟩
            · rw [if_neg hj, hfj]
              exact ⟨rj, rfl, rfl⟩
        · unfold submitChallenge
          rw [hf]
          simp only [hw, if_pos, if_neg, ne_eq, not_true_eq_false, not_not,
            if_false, hc, Bool.false_eq_true]
          exact ⟨hWF, le_refl _, fun id' r' h => ⟨r', h, rfl⟩⟩
      · unfold submitChallenge
        rw [hf]
        simp only [ne_eq, hw, not_false_eq_true, if_true]
        exact ⟨hWF, le_refl _, fun id' r' h => ⟨r', h, rfl⟩⟩

/-- Claim C6: every serialized operation preserves the table invariants:
the ids present are exactly 0..current (rounds are never deleted and the
current id never decreases, so ids are never reused), and every existing
round keeps its challenge unchanged. -/
theorem step_preserves_invariants (c : Nat) (req : Req) (s : ServerState)
    (hWF : WF s) :
    WF (step c req s).1 ∧
    s.current_transaction_id ≤ (step c req s).1.current_transaction_id ∧
    ∀ id r, findTx s.transactions id = some r →
      ∃ r', findTx (step c req s).1.transactions id = some r' ∧
        r'.challenge = r.challenge := by
  cases req with
  | submitChallenge id clientId sol =>
      exact submit_preserves_table c s id clientId sol hWF
  | getTransactionID => exact ⟨hWF, le_refl _, fun id r h => ⟨r, h, rfl⟩⟩
  | getChallenge id => exact ⟨hWF, le_refl _, fun id r h => ⟨r, h, rfl⟩⟩
  | getTransactionStatus id => exact ⟨hWF, le_refl _, fun id r h => ⟨r, h, rfl⟩⟩
  | getWinner id => exact ⟨hWF, le_refl _, fun id r h => ⟨r, h, rfl⟩⟩
  | getSolution id => exact ⟨hWF, le_refl _, fun id r h => ⟨r, h, rfl⟩⟩

/-- Witness for C6: a concrete submission step on the initial state. -/
theorem step_preserves_invariants_witness :
    WF (step 4 (Req.submitChallenge 0 7 "abc") (initState 3)).1 ∧
    (initState 3).current_transaction_id ≤
      (step 4 (Req.submitChallenge 0 7 "abc") (initState 3)).1.current_transaction_id ∧
    ∀ id r, findTx (initState 3).transactions id = some r →
      ∃ r', findTx (step 4 (Req.submitChallenge 0 7 "abc") (initState 3)).1.transactions id =
          some r' ∧ r'.challenge = r.challenge :=
  step_preserves_invariants 4 (Req.submitChallenge 0 7 "abc") (initState 3)
    (initState_WF 3)

/-- Claim C3 (amended): on a well-formed state, an accepted submission
with a client id other than the sentinel -1 stores the candidate as the
round's solution and the client id as its winner in the same atomic
step, and creates the round with the next current id, pending, with the
freshly drawn challenge in [1,20]; immediately afterwards
`getChallenge` on the successor id succeeds (is not -1) and
`getTransactionStatus` on the submitted round is 0 (resolved). -/
theorem accept_rollover (c : Nat) (s : ServerState) (id clientId : Int)
    (cand : String) (r : Round)
    (hWF : WF s)
    (hf : findTx s.transactions id = some r) (hw : r.winner = -1)
    (hc : check_solution r.challenge cand = true)
    (hcid : clientId ≠ -1) (hc1 : 1 ≤ c) (hc2 : c ≤ 20) :
    (submitChallenge c s id clientId cand).2 = 1 ∧
    findTx (submitChallenge c s id clientId cand).1.transactions id =
      some ({ r with solution := some cand, winner := clientId }) ∧
    (∃ r', findTx (submitChallenge c s id clientId cand).1.transactions
        ((submitChallenge c s id clientId cand).1.current_transaction_id) =
          some r' ∧
      r'.solution = none ∧ r'.winner = -1 ∧
      1 ≤ r'.challenge ∧ r'.challenge ≤ 20) ∧
    getChallenge (submitChallenge c s id clientId cand).1 (id + 1) ≠ -1 ∧
    getTransactionStatus (submitChallenge c s id clientId cand).1 id = 0 := by
  obtain ⟨h1, hT, hcur⟩ := submit_accept_lookup c s id clientId cand r hf hw hc
  have hfi := findTx_after_accept c s id clientId cand r hf hw hc
  have hid : 0 ≤ id ∧ id ≤ s.current_transaction_id :=
    (hWF id).mp (by rw [hf]; rfl)
  have hnew : findTx (submitChallenge c s id clientId cand).1.transactions
      (s.current_transaction_id + 1) =
      some { challenge := c, solution := none, winner := -1 } := by
    rw [hT, findTx_append, findTx_setTx,
      if_neg (by omega : ¬ s.current_transaction_id + 1 = id)]
    have hnone : findTx s.transactions (s.current_transaction_id + 1) = none := by
      cases hfx : findTx s.transactions (s.current_transaction_id + 1) with
      | none => rfl
      | some rx =>
          have := (hWF _).mp (by rw [hfx]; rfl)
          omega
    rw [hnone, if_pos rfl]
  refine ⟨h1, hfi, ⟨_, by rw [hcur]; exact hnew, rfl, rfl, hc1, hc2⟩, ?_, ?_⟩
  · unfold getChallenge
    by_cases hlast : id = s.current_transaction_id
    · rw [show id + 1 = s.current_transaction_id + 1 from by omega, hnew]
      simp only [ne_eq]
      omega
    · have hsome : (findTx (submitChallenge c s id clientId cand).1.transactions
          (id + 1)).isSome := by
        rw [hT, findTx_append, findTx_setTx,
          if_neg (by omega : ¬ id + 1 = id)]
        have := (hWF (id + 1)).mpr ⟨by omega, by omega⟩
        cases hfx : findTx s.transactions (id + 1) with
        | none => rw [hfx] at this; simp at this
        | some rx => simp
      cases hfx : findTx (submitChallenge c s id clientId cand).1.transactions
          (id + 1) with
      | none => rw [hfx] at hsome; simp at hsome
      | some rx =>
          simp only [ne_eq]
          omega
  · unfold getTransactionStatus
    rw [hfi]
    simp [hcid]

/-- Counterexample to claim C3 as stated: a valid candidate submitted
with client id -1 is accepted, yet `getTransactionStatus` on the round
then still returns 1 (pending), not 0 (resolved). -/
theorem accept_rollover_sentinel_cex :
    (submitChallenge 2 (initState 1) 0 (-1) "XGnOyJtNds82s1t6").2 = 1 ∧
    getTransactionStatus
      (submitChallenge 2 (initState 1) 0 (-1) "XGnOyJtNds82s1t6").1 0 = 1 := by
  decide

/-- Witness for amended C3 at a concrete accepted submission. -/
theorem accept_rollover_witness :
    (submitChallenge 2 (initState 1) 0 7 "XGnOyJtNds82s1t6").2 = 1 ∧
    findTx (submitChallenge 2 (initState 1) 0 7 "XGnOyJtNds82s1t6").1.transactions 0 =
      some ({ Round.mk 1 none (-1) with
        solution := some "XGnOyJtNds82s1t6", winner := 7 }) ∧
    (∃ r', findTx (submitChallenge 2 (initState 1) 0 7 "XGnOyJtNds82s1t6").1.transactions
        ((submitChallenge 2 (initState 1) 0 7 "XGnOyJtNds82s1t6").1.current_transaction_id) =
          some r' ∧
      r'.solution = none ∧ r'.winner = -1 ∧
      1 ≤ r'.challenge ∧ r'.challenge ≤ 20) ∧
    getChallenge (submitChallenge 2 (initState 1) 0 7 "XGnOyJtNds82s1t6").1 (0 + 1) ≠ -1 ∧
    getTransactionStatus (submitChallenge 2 (initState 1) 0 7 "XGnOyJtNds82s1t6").1 0 = 0 :=
  accept_rollover 2 (initState 1) 0 7 "XGnOyJtNds82s1t6" (Round.mk 1 none (-1))
    (initState_WF 1) (by decide) rfl (by decide) (by decide) (by decide) (by decide)

/-- Run a list of submissions (drawn challenge, client id, candidate)
against one fixed transaction id in order — the serialized order in which
concurrent submitters acquire the servicer's lock — returning the final
state and the list of result codes. -/
def runSubmits (id : Int) : List (Nat × Int × String) → ServerState →
    ServerState × List Int
  | [], s => (s, [])
  | (c, clientId, cand) :: rest, s =>
      let p := submitChallenge c s id clientId cand
      let q := runSubmits id rest p.1
      (q.1, p.2 :: q.2)

/-- Once a round has a non-sentinel winner, every further submission to
it answers 2 (AlreadySolved) and changes nothing. -/
theorem runSubmits_solved (id : Int) (calls : List (Nat × Int × String))
    (s : ServerState) (r : Round)
    (hf : findTx s.transactions id = some r) (hw : r.winner ≠ -1) :
    runSubmits id calls s = (s, List.replicate calls.length 2) := by
  induction calls with
  | nil => rfl
  | cons x rest ih =>
      obtain ⟨c, clientId, cand⟩ := x
      have h1 : submitChallenge c s id clientId cand = (s, 2) := by
        unfold submitChallenge
        rw [hf]
        simp [hw]
      simp [runSubmits, h1, ih, List.replicate_succ]

/-- Claim C1 (amended): for a pending round, any serialized sequence of
submissions in which every candidate passes verification and no client
id is the sentinel -1 yields Accepted (1) for the first call and
AlreadySolved (2) for every later call — so exactly one call is
accepted. -/
theorem submit_sequence_one_winner (id : Int)
    (calls : List (Nat × Int × String)) (s : ServerState) (r : Round)
    (hf : findTx s.transactions id = some r) (hw : r.winner = -1)
    (hvalid : ∀ x ∈ calls, check_solution r.challenge x.2.2 = true)
    (hcid : ∀ x ∈ calls, x.2.1 ≠ (-1 : Int))
    (hne : calls ≠ []) :
    (runSubmits id calls s).2.head? = some 1 ∧
      ∀ res ∈ (runSubmits id calls s).2.tail, res = 2 := by
  cases calls with
  | nil => exact absurd rfl hne
  | cons x rest =>
      obtain ⟨c, clientId, cand⟩ := x
      have hcv : check_solution r.challenge cand = true :=
        hvalid _ (List.mem_cons_self _ _)
      have hcc : clientId ≠ (-1 : Int) := hcid _ (List.mem_cons_self _ _)
      obtain ⟨h1, hT, hcur⟩ := submit_accept_lookup c s id clientId cand r hf hw hcv
      have hf₁ := findTx_after_accept c s id clientId cand r hf hw hcv
      have hrest := runSubmits_solved id rest
        (submitChallenge c s id clientId cand).1 _ hf₁ (by simpa using hcc)
      constructor
      · simp [runSubmits, hrest, h1]
      · intro res hres
        simp only [runSubmits, hrest] at hres
        simp only [List.tail_cons] at hres
        exact List.eq_of_mem_replicate hres

/-- Counterexample to claim C1 as stated: with the sentinel client id -1,
two successive submissions of the same valid candidate to round 0 are
both answered 1 (Accepted). -/
theorem submit_sequence_two_accepted :
    (runSubmits 0 [(1, -1, "XGnOyJtNds82s1t6"), (1, -1, "XGnOyJtNds82s1t6")]
      (initState 1)).2 = [1, 1] := by
  decide

/-- Witness for amended C1: two clients, 7 then 8, race the same valid
candidate for round 0; the first is accepted, the second sees 2. -/
theorem submit_sequence_one_winner_witness :
    (runSubmits 0 [(1, 7, "XGnOyJtNds82s1t6"), (1, 8, "XGnOyJtNds82s1t6")]
      (initState 1)).2.head? = some 1 ∧
      ∀ res ∈ (runSubmits 0 [(1, 7, "XGnOyJtNds82s1t6"), (1, 8, "XGnOyJtNds82s1t6")]
        (initState 1)).2.tail, res = 2 :=
  submit_sequence_one_winner 0 _ (initState 1) (Round.mk 1 none (-1))
    (by decide) rfl (by decide) (by decide) (by decide)

/-- Claim C10: a candidate that passes verification, submitted with
client id -1 to a pending round, is accepted and stores winner -1 — the
sentinel for "no winner" — so the round still reports status 1
(pending) and winner 0 (none yet), and a further passing submission to
the same round is again answered 1 (Accepted) instead of 2. -/
theorem sentinel_client_accept (c c' : Nat) (s : ServerState) (id : Int)
    (cand cand' : String) (clientId' : Int) (r : Round)
    (hf : findTx s.transactions id = some r) (hw : r.winner = -1)
    (hc : check_solution r.challenge cand = true)
    (hc' : check_solution r.challenge cand' = true) :
    (submitChallenge c s id (-1) cand).2 = 1 ∧
    findTx (submitChallenge c s id (-1) cand).1.transactions id =
      some ({ r with solution := some cand, winner := -1 }) ∧
    getTransactionStatus (submitChallenge c s id (-1) cand).1 id = 1 ∧
    getWinner (submitChallenge c s id (-1) cand).1 id = 0 ∧
    (submitChallenge c' (submitChallenge c s id (-1) cand).1 id clientId' cand').2 = 1 := by
  obtain ⟨h1, hT, hcur⟩ := submit_accept_lookup c s id (-1) cand r hf hw hc
  have hf₁ := findTx_after_accept c s id (-1) cand r hf hw hc
  refine ⟨h1, hf₁, ?_, ?_, ?_⟩
  · unfold getTransactionStatus
    rw [hf₁]
    simp
  · unfold getWinner
    rw [hf₁]
    simp
  · exact (submit_accept_lookup c' (submitChallenge c s id (-1) cand).1 id
      clientId' cand' _ hf₁ rfl hc').1

/-- Witness for C10 at a concrete valid candidate. -/
theorem sentinel_client_accept_witness :
    (submitChallenge 2 (initState 1) 0 (-1) "L9IHv68gIAPhqrDX").2 = 1 ∧
    findTx (submitChallenge 2 (initState 1) 0 (-1) "L9IHv68gIAPhqrDX").1.transactions 0 =
      some ({ Round.mk 1 none (-1) with
        solution := some "L9IHv68gIAPhqrDX", winner := -1 }) ∧
    getTransactionStatus
      (submitChallenge 2 (initState 1) 0 (-1) "L9IHv68gIAPhqrDX").1 0 = 1 ∧
    getWinner (submitChallenge 2 (initState 1) 0 (-1) "L9IHv68gIAPhqrDX").1 0 = 0 ∧
    (submitChallenge 3 (submitChallenge 2 (initState 1) 0 (-1) "L9IHv68gIAPhqrDX").1
      0 9 "L9IHv68gIAPhqrDX").2 = 1 :=
  sentinel_client_accept 2 3 (initState 1) 0 "L9IHv68gIAPhqrDX" "L9IHv68gIAPhqrDX" 9
    (Round.mk 1 none (-1)) (by decide) rfl (by decide) (by decide)

/-! ## The client: parallel local mining (`miner_client.py`)

`local_mine` spawns 8 `mine_worker` threads.  Each worker loops: while
the shared stop event is unset, draw a random 16-character alphanumeric
nonce, hash it, and if the digest starts with the required zero
characters, take the shared lock, re-check the event, and only if it is
still unset store the nonce and set the event.  The coordinator waits
for the event and then joins every worker.  We model the shared state
(event flag and solution storage) plus each worker's local position as
a transition system; each `MStep` constructor is one atomic action of
one worker (the lock makes the check-and-set one atomic action),
labelled true exactly when it stores into the claim slot. -/

/-- The nonce alphabet `string.ascii_letters + string.digits`. -/
def nonceAlphabet : List Char :=
  "abcdefghijklmnopqrstuvwxyzABCDEFGHIJKLMNOPQRSTUVWXYZ0123456789".data

/-- A value `random.choices(..., k=16)` can produce: 16 characters, all
drawn from the alphabet. -/
def validNonce (v : String) : Bool :=
  v.data.length == 16 && v.data.all (fun ch => nonceAlphabet.contains ch)

/-- The worker's own success test on a nonce: the lowercase hex digest
starts with `d` zero characters. -/
def hashOk (d : Nat) (v : String) : Bool :=
  (List.replicate d '0').isPrefixOf (sha1HexChars (strBytes v))

/-- A worker's local position: at the top of its while loop, holding a
found nonce and about to take the lock, or exited. -/
inductive WLocal
  | looping
  | atLock (v : String)
  | done
deriving DecidableEq

/-- The shared mining state: the stop event, the solution storage and
the local position of each worker thread. -/
structure MineState where
  flag : Bool
  slot : Option String
  workers : List WLocal
deriving DecidableEq

/-- The state just after `local_mine` has spawned its 8 workers. -/
def initMine : MineState :=
  { flag := false, slot := none, workers := List.replicate 8 WLocal.looping }

/-- One atomic action of one worker, the worker being chosen by the
split `l₁ ++ _ :: l₂` of the worker list.  The label is true exactly
for the action that stores into the claim slot. -/
inductive MStep (d : Nat) : Bool → MineState → MineState → Prop
  | exitLoop (sl : Option String) (l₁ l₂ : List WLocal) :
      MStep d false ⟨true, sl, l₁ ++ WLocal.looping :: l₂⟩
        ⟨true, sl, l₁ ++ WLocal.done :: l₂⟩
  | failAttempt (fl : Bool) (sl : Option String) (l₁ l₂ : List WLocal)
      (v : String) : validNonce v = true → hashOk d v = false →
      MStep d false ⟨fl, sl, l₁ ++ WLocal.looping :: l₂⟩
        ⟨fl, sl, l₁ ++ WLocal.looping :: l₂⟩
  | findNonce (fl : Bool) (sl : Option String) (l₁ l₂ : List WLocal)
      (v : String) : validNonce v = true → hashOk d v = true →
      MStep d false ⟨fl, sl, l₁ ++ WLocal.looping :: l₂⟩
        ⟨fl, sl, l₁ ++ WLocal.atLock v :: l₂⟩
  | claimWin (sl : Option String) (l₁ l₂ : List WLocal) (v : String) :
      MStep d true ⟨false, sl, l₁ ++ WLocal.atLock v :: l₂⟩
        ⟨true, some v, l₁ ++ WLocal.done :: l₂⟩
  | claimLose (sl : Option String) (l₁ l₂ : List WLocal) (v : String) :
      MStep d false ⟨true, sl, l₁ ++ WLocal.atLock v :: l₂⟩
        ⟨true, sl, l₁ ++ WLocal.done :: l₂⟩

/-- Finitely many interleaved worker actions, recording the labels. -/
inductive Reaches (d : Nat) : MineState → List Bool → MineState → Prop
  | refl (s : MineState) : Reaches d s [] s
  | tail {s₁ : MineState} {L : List Bool} {s₂ s₃ : MineState} {b : Bool} :
      Reaches d s₁ L s₂ → MStep d b s₂ s₃ → Reaches d s₁ (L ++ [b]) s₃

/-- `local_mine` returns once the event is set (`wait`) and every
worker thread has been joined. -/
def mineReturned (s : MineState) : Prop :=
  s.flag = true ∧ ∀ w ∈ s.workers, w = WLocal.done

/-- Inductive invariant of the search: the slot is empty until the
event fires, a fired event means the slot holds a valid winning nonce,
and a worker at the lock holds a valid winning nonce. -/
def MInv (d : Nat) (s : MineState) : Prop :=
  (s.flag = false → s.slot = none) ∧
  (s.flag = true → ∃ v, s.slot = some v ∧ validNonce v = true ∧
    hashOk d v = true) ∧
  (∀ v, WLocal.atLock v ∈ s.workers → validNonce v = true ∧ hashOk d v = true)

theorem mstep_MInv {d : Nat} {b : Bool} {s s' : MineState}
    (h : MStep d b s s') (hI : MInv d s) : MInv d s' := by
  obtain ⟨hI1, hI2, hI3⟩ := hI
  cases h with
  | exitLoop sl l₁ l₂ =>
      refine ⟨hI1, hI2, ?_⟩
      intro v hv
      refine hI3 v ?_
      simp only [List.mem_append, List.mem_cons] at hv ⊢
      rcases hv with h | h | h
      · exact Or.inl h
      · exact absurd h (by simp)
      · exact Or.inr (Or.inr h)
  | failAttempt fl sl l₁ l₂ v hv1 hv2 => exact ⟨hI1, hI2, hI3⟩
  | findNonce fl sl l₁ l₂ v hv1 hv2 =>
      refine ⟨hI1, hI2, ?_⟩
      intro u hu
      simp only [List.mem_append, List.mem_cons] at hu
      rcases hu with h | h | h
      · exact hI3 u (by simp [h])
      · obtain rfl : u = v := by
          simpa [WLocal.atLock.injEq] using h
        exact ⟨hv1, hv2⟩
      · exact hI3 u (by simp [h])
  | claimWin sl l₁ l₂ v =>
      have hv : validNonce v = true ∧ hashOk d v = true :=
        hI3 v (by simp)
      refine ⟨?_, ?_, ?_⟩
      · intro h
        simp at h
      · intro _
        exact ⟨v, rfl, hv.1, hv.2⟩
      · intro u hu
        refine hI3 u ?_
        simp only [List.mem_append, List.mem_cons] at hu ⊢
        rcases hu with h | h | h
        · exact Or.inl h
        · exact absurd h (by simp)
        · exact Or.inr (Or.inr h)
  | claimLose sl l₁ l₂ v =>
      refine ⟨hI1, hI2, ?_⟩
      intro u hu
      refine hI3 u ?_
      simp only [List.mem_append, List.mem_cons] at hu ⊢
      rcases hu with h | h | h
      · exact Or.inl h
      · exact absurd h (by simp)
      · exact Or.inr (Or.inr h)

theorem mstep_false_flag {d : Nat} {s s' : MineState}
    (h : MStep d false s s') : s'.flag = s.flag := by
  cases h <;> rfl

theorem mstep_true_flag {d : Nat} {s s' : MineState}
    (h : MStep d true s s') : s.flag = false ∧ s'.flag = true := by
  cases h
  exact ⟨rfl, rfl⟩

theorem reaches_MInv {d : Nat} {s0 : MineState} {L : List Bool}
    {s : MineState} (h : Reaches d s0 L s) (hI : MInv d s0) : MInv d s := by
  induction h with
  | refl => exact hI
  | tail hr hs ih => exact mstep_MInv hs ih

theorem initMine_MInv (d : Nat) : MInv d initMine := by
  refine ⟨fun _ => rfl, fun h => by simp [initMine] at h, ?_⟩
  intro v hv
  simp [initMine, List.mem_replicate] at hv

/-- Along any execution from the initial state, the number of stores
into the claim slot is 1 if the event has fired and 0 otherwise. -/
theorem reaches_count {d : Nat} {s0 : MineState} {L : List Bool}
    {s : MineState} (h : Reaches d s0 L s) (h0 : s0.flag = false) :
    L.count true = (if s.flag = true then 1 else 0) := by
  induction h with
  | refl => simp [h0]
  | tail hr hs ih =>
      rw [List.count_append, ih]
      rename_i b
      cases b with
      | false =>
          have hfl := mstep_false_flag hs
          rw [hfl]
          simp
      | true =>
          obtain ⟨h2, h3⟩ := mstep_true_flag hs
          simp [h2, h3]

/-- Claim C9: in every execution of the local search, exactly one
worker action ever stores into the shared claim slot (a worker that
reaches the lock after the event fired discards its find), and when
`local_mine` returns — the event fired and every worker was joined —
the slot holds a claimed value and no worker is still running. -/
theorem mine_exactly_one_claim (d : Nat) (L : List Bool) (s : MineState)
    (h : Reaches d initMine L s) (hret : mineReturned s) :
    L.count true = 1 ∧ (∃ v, s.slot = some v) ∧
      ∀ w ∈ s.workers, w = WLocal.done := by
  obtain ⟨hflag, hdone⟩ := hret
  have hc := reaches_count h rfl
  have hI := reaches_MInv h (initMine_MInv d)
  obtain ⟨v, hv, -, -⟩ := hI.2.1 hflag
  exact ⟨by rw [hc, if_pos hflag], ⟨v, hv⟩, hdone⟩

/-- Claim C8: whenever the local search returns with a claimed value
`v`, that value passes the server's verification: its SHA-1 hex digest
starts with `difficulty` zero characters. -/
theorem mine_result_valid (d : Nat) (L : List Bool) (s : MineState)
    (v : String) (h : Reaches d initMine L s) (hret : mineReturned s)
    (hv : s.slot = some v) (_hd1 : 1 ≤ d) (_hd2 : d ≤ 20) :
    check_solution d v = true := by
  have hI := reaches_MInv h (initMine_MInv d)
  obtain ⟨v', hv', hval, hok⟩ := hI.2.1 hret.1
  rw [hv] at hv'
  obtain rfl : v = v' := Option.some_inj.mp hv'
  have hne : v ≠ "" := by
    intro hcon
    rw [hcon] at hval
    exact absurd hval (by decide)
  unfold check_solution
  rw [if_neg hne]
  exact hok

/-- The final state of the concrete mining interleaving below. -/
def minedState : MineState :=
  { flag := true, slot := some "XGnOyJtNds82s1t6",
    workers := List.replicate 8 WLocal.done }

/-- A concrete 9-step interleaving at difficulty 1: worker 0 finds the
nonce XGnOyJtNds82s1t6 (digest 07bb…), claims the slot and sets the
event, and the other 7 workers observe the event and exit. -/
theorem reach_mined :
    Reaches 1 initMine [false, true, false, false, false, false, false, false, false]
      minedState := by
  have h0 : Reaches 1 initMine [] initMine := Reaches.refl _
  have h1 := Reaches.tail h0
    (MStep.findNonce (d := 1) false none [] (List.replicate 7 WLocal.looping)
      "XGnOyJtNds82s1t6" (by decide) (by decide))
  have h2 := Reaches.tail h1
    (MStep.claimWin (d := 1) none [] (List.replicate 7 WLocal.looping)
      "XGnOyJtNds82s1t6")
  have h3 := Reaches.tail h2
    (MStep.exitLoop (d := 1) (some "XGnOyJtNds82s1t6")
      (List.replicate 1 WLocal.done) (List.replicate 6 WLocal.looping))
  have h4 := Reaches.tail h3
    (MStep.exitLoop (d := 1) (some "XGnOyJtNds82s1t6")
      (List.replicate 2 WLocal.done) (List.replicate 5 WLocal.looping))
  have h5 := Reaches.tail h4
    (MStep.exitLoop (d := 1) (some "XGnOyJtNds82s1t6")
      (List.replicate 3 WLocal.done) (List.replicate 4 WLocal.looping))
  have h6 := Reaches.tail h5
    (MStep.exitLoop (d := 1) (some "XGnOyJtNds82s1t6")
      (List.replicate 4 WLocal.done) (List.replicate 3 WLocal.looping))
  have h7 := Reaches.tail h6
    (MStep.exitLoop (d := 1) (some "XGnOyJtNds82s1t6")
      (List.replicate 5 WLocal.done) (List.replicate 2 WLocal.looping))
  have h8 := Reaches.tail h7
    (MStep.exitLoop (d := 1) (some "XGnOyJtNds82s1t6")
      (List.replicate 6 WLocal.done) (List.replicate 1 WLocal.looping))
  have h9 := Reaches.tail h8
    (MStep.exitLoop (d := 1) (some "XGnOyJtNds82s1t6")
      (List.replicate 7 WLocal.done) ([] : List WLocal))
  exact h9

/-- Witness for C9 on the concrete interleaving. -/
theorem mine_exactly_one_claim_witness :
    [false, true, false, false, false, false, false, false, false].count true = 1 ∧
    (∃ v, minedState.slot = some v) ∧
    ∀ w ∈ minedState.workers, w = WLocal.done :=
  mine_exactly_one_claim 1 _ _ reach_mined ⟨rfl, by decide⟩

/-- Witness for C8 on the concrete interleaving. -/
theorem mine_result_valid_witness :
    check_solution 1 "XGnOyJtNds82s1t6" = true :=
  mine_result_valid 1 _ _ "XGnOyJtNds82s1t6" reach_mined ⟨rfl, by decide⟩ rfl
    (by decide) (by decide)

end Miner
